import Mathlib

/-!
Verification of the hierarchy-flattening and CFR-reference-derivation core of
the ttb-regs-download repository (src/code/download_ecfr_titles.py).

The Python values stored in hierarchy items are scalars: strings, integers,
booleans and None.  Dicts are modelled as association lists in insertion
order, with assignment replacing an existing binding in place and appending a
new binding at the end, exactly like a Python dict preserves insertion order.
-/

namespace ECfr

/-- A Python scalar value as it occurs in the structure JSON. -/
inductive Value where
  | vStr (s : String)
  | vInt (n : Int)
  | vBool (b : Bool)
  | vNull
deriving DecidableEq, Repr

/-- Python str() rendering of a scalar, as used by f-string interpolation. -/
def Value.render : Value → String
  | .vStr s => s
  | .vInt n => toString n
  | .vBool b => if b then "True" else "False"
  | .vNull => "None"

/-- Python truthiness of a scalar. -/
def Value.truthy : Value → Bool
  | .vStr s => s ≠ ""
  | .vInt n => n ≠ 0
  | .vBool b => b
  | .vNull => false

/-- A Python dict with string keys, in insertion order. -/
abbrev Dict := List (String × Value)

/-- Dict lookup (Python d.get(k) / "k in d"). -/
def dget : Dict → String → Option Value
  | [], _ => none
  | (k', v) :: rest, k => if k' = k then some v else dget rest k

/-- Dict lookup with default (Python d.get(k, default)). -/
def dgetD (d : Dict) (k : String) (dv : Value) : Value :=
  (dget d k).getD dv

/-- Dict assignment (Python d[k] = v): replaces an existing binding in place,
otherwise appends at the end. -/
def dinsert : Dict → String → Value → Dict
  | [], k, v => [(k, v)]
  | (k', v') :: rest, k, v =>
    if k' = k then (k', v) :: rest else (k', v') :: dinsert rest k v

/-- Sequential assignment of a list of bindings into a dict, in order.  This
models both a Python loop of d[k] = v assignments and dict.update. -/
def insertAll (d : Dict) (ps : List (String × Value)) : Dict :=
  ps.foldl (fun acc kv => dinsert acc kv.1 kv.2) d

/-- Python `k in item and item[k]` with short-circuit evaluation: the key is
present and its value is truthy. -/
def truthyMem (item : Dict) (k : String) : Bool :=
  match dget item k with
  | some v => v.truthy
  | none => false

/-- The appendix branch of calculate_cfr_ref (lines 551-563).  A Python dict
subscription item[k] is modelled as a fallible lookup whose missing-key branch
is a KeyError. -/
def appendixRef (item : Dict) (base_ref : String) : Except String String :=
  if truthyMem item "section_identifier" then
    match dget item "section_identifier" with
    | none => Except.error "KeyError"
    | some section_id =>
      let appendix_id := dgetD item "appendix_identifier" (.vStr "")
      Except.ok (if appendix_id.truthy then
        base_ref ++ " §" ++ section_id.render ++ " ( " ++ appendix_id.render ++ ")"
      else base_ref ++ " §" ++ section_id.render)
  else if truthyMem item "part_identifier" then
    match dget item "part_identifier" with
    | none => Except.error "KeyError"
    | some part_id =>
      let appendix_id := dgetD item "appendix_identifier" (.vStr "")
      Except.ok (if appendix_id.truthy then
        base_ref ++ " pt" ++ part_id.render ++ " ( " ++ appendix_id.render ++ ")"
      else base_ref ++ " pt" ++ part_id.render)
  else
    let appendix_id := dgetD item "appendix_identifier" (.vStr "")
    Except.ok (if appendix_id.truthy then
      base_ref ++ " ( " ++ appendix_id.render ++ ")"
    else base_ref)

/-- The subject_group branch of calculate_cfr_ref (lines 564-590): the
context-dependent base built by the chain of membership-and-truthiness tests
in source order, then the subject-group suffix. -/
def subjectGroupRef (item : Dict) (base_ref : String) : Except String String :=
  let subj_grp_id := dgetD item "subject_group_identifier" (.vStr "")
  let subj_grp_suffix : String :=
    if subj_grp_id.truthy then " (Subj Grp " ++ subj_grp_id.render ++ ")" else ""
  if truthyMem item "appendix_identifier" then
    match dget item "appendix_identifier" with
    | none => Except.error "KeyError"
    | some appendix_id =>
      let section_id := dgetD item "section_identifier" (.vStr "")
      Except.ok ((if section_id.truthy then
        base_ref ++ " §" ++ section_id.render ++ " ( " ++ appendix_id.render ++ ")"
      else base_ref ++ " ( " ++ appendix_id.render ++ ")") ++ subj_grp_suffix)
  else if truthyMem item "section_identifier" then
    match dget item "section_identifier" with
    | none => Except.error "KeyError"
    | some section_id =>
      Except.ok (base_ref ++ " §" ++ section_id.render ++ subj_grp_suffix)
  else if truthyMem item "subpart_identifier" then
    match dget item "subpart_identifier" with
    | none => Except.error "KeyError"
    | some subpart_id =>
      let part_id := dgetD item "part_identifier" (.vStr "")
      Except.ok ((if part_id.truthy then
        base_ref ++ " pt" ++ part_id.render ++ "-" ++ subpart_id.render
      else base_ref ++ " (Subpart " ++ subpart_id.render ++ ")") ++ subj_grp_suffix)
  else if truthyMem item "part_identifier" then
    match dget item "part_identifier" with
    | none => Except.error "KeyError"
    | some part_id =>
      Except.ok (base_ref ++ " pt" ++ part_id.render ++ subj_grp_suffix)
  else if truthyMem item "subchapter_identifier" then
    match dget item "subchapter_identifier" with
    | none => Except.error "KeyError"
    | some subchapter_id =>
      let chapter_id := dgetD item "chapter_identifier" (.vStr "")
      Except.ok ((if chapter_id.truthy then
        base_ref ++ " ch" ++ chapter_id.render ++ "-" ++ subchapter_id.render
      else base_ref ++ " (Subchapter " ++ subchapter_id.render ++ ")") ++ subj_grp_suffix)
  else
    Except.ok (base_ref ++ subj_grp_suffix)

/-- Embedding of calculate_cfr_ref (download_ecfr_titles.py lines 509-593).
The source reads hierarchy_type with item.get (None when absent) and title_id
with item.get(..., "") and tests the latter for truthiness; it then runs the
chain of hierarchy_type comparisons in source order, with the appendix and
subject_group blocks split into the two helper definitions above. -/
def calcCfrRef (item : Dict) : Except String String :=
  let hierarchy_type : Value := (dget item "hierarchy_type").getD .vNull
  let title_id : Value := dgetD item "title_identifier" (.vStr "")
  if ¬ title_id.truthy then
    Except.ok ("CFR " ++ hierarchy_type.render)
  else
    let base_ref : String := title_id.render ++ " CFR"
    if hierarchy_type = .vStr "title" then
      Except.ok base_ref
    else if hierarchy_type = .vStr "chapter" then
      let chapter_id := dgetD item "chapter_identifier" (.vStr "")
      Except.ok (if chapter_id.truthy then base_ref ++ " ch" ++ chapter_id.render else base_ref)
    else if hierarchy_type = .vStr "subchapter" then
      let chapter_id := dgetD item "chapter_identifier" (.vStr "")
      let subchapter_id := dgetD item "subchapter_identifier" (.vStr "")
      Except.ok (if chapter_id.truthy && subchapter_id.truthy then
        base_ref ++ " ch" ++ chapter_id.render ++ "-" ++ subchapter_id.render
      else base_ref)
    else if hierarchy_type = .vStr "part" then
      let part_id := dgetD item "part_identifier" (.vStr "")
      Except.ok (if part_id.truthy then base_ref ++ " pt" ++ part_id.render else base_ref)
    else if hierarchy_type = .vStr "subpart" then
      let part_id := dgetD item "part_identifier" (.vStr "")
      let subpart_id := dgetD item "subpart_identifier" (.vStr "")
      Except.ok (if part_id.truthy && subpart_id.truthy then
        base_ref ++ " pt" ++ part_id.render ++ "-" ++ subpart_id.render
      else base_ref)
    else if hierarchy_type = .vStr "section" then
      let section_id := dgetD item "section_identifier" (.vStr "")
      Except.ok (if section_id.truthy then base_ref ++ " §" ++ section_id.render else base_ref)
    else if hierarchy_type = .vStr "appendix" then
      appendixRef item base_ref
    else if hierarchy_type = .vStr "subject_group" then
      subjectGroupRef item base_ref
    else
      Except.ok (base_ref ++ " (" ++ hierarchy_type.render ++ ")")

/-- The string produced by calculate_cfr_ref; the error branch is proved
unreachable below, so this total projection agrees with calcCfrRef on every
input. -/
def cfrRefStr (item : Dict) : String :=
  match calcCfrRef item with
  | .ok s => s
  | .error _ => ""

/-- A structure node: its scalar attributes (the dict without the "children"
key) and its ordered children.  A Python node whose "children" key is absent
behaves exactly like one whose "children" list is empty (the source only ever
reads node.get("children", [])), so both are the empty children list here. -/
inductive Node where
  | mk (attrs : Dict) (children : List Node)

/-- The attribute dict of a node. -/
def Node.attrs : Node → Dict
  | .mk a _ => a

/-- The children of a node. -/
def Node.children : Node → List Node
  | .mk _ cs => cs

/-- Total number of nodes in a forest. -/
def sizeL : List Node → Nat
  | [] => 0
  | .mk _ cs :: ns => 1 + sizeL cs + sizeL ns
termination_by ns => sizeOf ns
decreasing_by
  all_goals simp_wf
  all_goals omega

/-- Total number of nodes in a tree. -/
def sizeN : Node → Nat
  | .mk _ cs => 1 + sizeL cs

/-- The in-place deletion of the keys size, volumes and descendant_range from
a node dict (download_ecfr_titles.py lines 603-607). -/
def stripAttrs (d : Dict) : Dict :=
  d.filter fun kv => ¬ (kv.1 = "size" ∨ kv.1 = "volumes" ∨ kv.1 = "descendant_range")

/-- The namespacing tag of a node dict: node.get("type", "root") rendered into
the f-string that builds the namespaced key. -/
def typeTag (d : Dict) : String :=
  match dget d "type" with
  | some v => v.render
  | none => "root"

/-- The namespaced bindings one ancestor contributes to
combined_parent_fields (lines 611-615): every attribute except "children",
under the key typeTag ++ "_" ++ attribute name, in dict order. -/
def nsPairs (d : Dict) : List (String × Value) :=
  d.filterMap fun kv =>
    if kv.1 = "children" then none else some (typeTag d ++ "_" ++ kv.1, kv.2)

/-- The namespaced bindings of the node itself (lines 618-622): every
attribute except "children" and "type". -/
def ownPairs (d : Dict) : List (String × Value) :=
  d.filterMap fun kv =>
    if kv.1 = "children" ∨ kv.1 = "type" then none
    else some (typeTag d ++ "_" ++ kv.1, kv.2)

/-- The element dict after the loop of lines 618-622. -/
def ownFields (d : Dict) : Dict := insertAll [] (ownPairs d)

/-- combined_parent_fields (lines 610-615): the ancestors' namespaced
bindings accumulated from the root down to the immediate parent; a nearer
ancestor's assignment overwrites a farther one's on the same key. -/
def combinedParentFields (chain : List Dict) : Dict :=
  chain.foldl (fun acc a => insertAll acc (nsPairs a)) []

/-- All ancestors' namespaced bindings concatenated in chain order; the
combined parent dict is exactly these bindings assigned in sequence. -/
def chainPairs : List Dict → List (String × Value)
  | [] => []
  | a :: rest => nsPairs a ++ chainPairs rest

/-- One output record (lines 617-637): the node's own namespaced fields, then
element.update(combined_parent_fields), then the reserved metadata fields in
source order, then cfr_ref computed from the element built so far.  The attrs
argument is the node dict after the strip of lines 603-607. -/
def mkElement (attrs : Dict) (chain : List Dict) (lvl : Nat) (c : Nat) (leaf : Bool) : Dict :=
  let e0 := insertAll (ownFields attrs) (combinedParentFields chain)
  let e1 := dinsert e0 "hierarchy_level" (.vInt lvl)
  let e2 := dinsert e1 "hierarchy_type" ((dget attrs "type").getD .vNull)
  let e3 := dinsert e2 "order_id" (.vInt c)
  let e4 := dinsert e3 "is_leaf_node" (.vBool leaf)
  dinsert e4 "cfr_ref" (.vStr (cfrRefStr e4))

/-- Embedding of flatten_all_elements_with_full_hierarchy (lines 597-645),
processing a forest of siblings left to right.  The state that the Python
function keeps in mutable objects is explicit: the returned triple is the
records appended to results, the post-mutation nodes (each visited node has
had size, volumes and descendant_range deleted in place), and the final value
of the shared order_id counter.  For a single node the source appends the
node's element, recurses into each child with the chain extended by the
(already stripped) node and level+1, and then control returns to the sibling
loop of the caller. -/
def flattenList : List Node → List Dict → Nat → Nat → List Dict × List Node × Nat
  | [], _, _, c => ([], [], c)
  | .mk attrs children :: ns, chain, lvl, c =>
    let a := stripAttrs attrs
    let e := mkElement a chain lvl c children.isEmpty
    let rc := flattenList children (chain ++ [a]) (lvl + 1) (c + 1)
    let rn := flattenList ns chain lvl rc.2.2
    (e :: rc.1 ++ rn.1, .mk a rc.2.1 :: rn.2.1, rn.2.2)
termination_by ns => sizeOf ns
decreasing_by
  all_goals simp_wf
  all_goals omega

/-- One call of flatten_all_elements_with_full_hierarchy on a root node with
ancestor chain, level and the current value of the order_id counter. -/
def flatten (n : Node) (chain : List Dict) (lvl : Nat) (c : Nat) : List Dict × Node × Nat :=
  let r := flattenList [n] chain lvl c
  (r.1, r.2.1.headD n, r.2.2)

/-- Successive top-level calls flatten_all_elements_with_full_hierarchy(root)
that rely on the default arguments.  The default order_id=[1] list is created
once at function definition time, so each call continues the counter left by
the previous one; this function threads that shared counter through the
calls, starting from its initial content. -/
def flattenCalls : List Node → Nat → List (List Dict) × Nat
  | [], c => ([], c)
  | n :: ns, c =>
    let r := flatten n [] 0 c
    let rest := flattenCalls ns r.2.2
    (r.1 :: rest.1, rest.2)

/-- A forest with the three volatile keys removed from every node. -/
def stripAllL : List Node → List Node
  | [] => []
  | .mk a cs :: ns => .mk (stripAttrs a) (stripAllL cs) :: stripAllL ns
termination_by ns => sizeOf ns
decreasing_by
  all_goals simp_wf
  all_goals omega

/-- A tree with the three volatile keys removed from every node. -/
def stripAll : Node → Node
  | .mk a cs => .mk (stripAttrs a) (stripAllL cs)

/-- Addressing of a node in a forest by a path of child indices: the head
index selects a sibling, the remaining indices descend into children.
Returns the addressed node, its pre-order position in the forest (the number
of records emitted before its own), and the chain of stripped ancestor dicts
between the forest roots and the node. -/
def pathInfo : List Node → List Nat → Option (Node × Nat × List Dict)
  | _, [] => none
  | [], _ :: _ => none
  | n :: _, [0] => some (n, 0, [])
  | n :: _, 0 :: q :: p =>
    match pathInfo n.children (q :: p) with
    | some (m, k, ch) => some (m, 1 + k, stripAttrs n.attrs :: ch)
    | none => none
  | n :: ns, (j + 1) :: p =>
    match pathInfo ns (j :: p) with
    | some (m, k, ch) => some (m, sizeN n + k, ch)
    | none => none
termination_by ns p => (p.length, ns.length)

/-! ### Association-list lemmas -/

theorem dget_dinsert_self (d : Dict) (k : String) (v : Value) :
    dget (dinsert d k v) k = some v := by
  induction d with
  | nil => simp [dinsert, dget]
  | cons kv rest ih =>
    by_cases h : kv.1 = k
    · simp [dinsert, h, dget]
    · simp [dinsert, h, dget, ih]

theorem dget_dinsert_ne (d : Dict) (k' k : String) (v : Value) (h : k' ≠ k) :
    dget (dinsert d k' v) k = dget d k := by
  induction d with
  | nil => simp [dinsert, dget, h]
  | cons kv rest ih =>
    by_cases h2 : kv.1 = k'
    · simp [dinsert, h2, dget, h]
    · simp [dinsert, h2, dget, ih]

theorem dget_append (l1 l2 : Dict) (k : String) :
    dget (l1 ++ l2) k =
      match dget l1 k with
      | some v => some v
      | none => dget l2 k := by
  induction l1 with
  | nil => simp [dget]
  | cons kv rest ih =>
    simp only [List.cons_append, dget, List.append_eq]
    by_cases h : kv.1 = k
    · simp [h]
    · simp [h, ih]

theorem dget_insertAll (ps : List (String × Value)) (d : Dict) (k : String) :
    dget (insertAll d ps) k =
      match dget ps.reverse k with
      | some v => some v
      | none => dget d k := by
  induction ps generalizing d with
  | nil => simp [insertAll, dget]
  | cons kv tl ih =>
    have step : insertAll d (kv :: tl) = insertAll (dinsert d kv.1 kv.2) tl := rfl
    rw [step, ih, List.reverse_cons, dget_append]
    cases h : dget tl.reverse k with
    | some v => rfl
    | none =>
      by_cases h2 : kv.1 = k
      · subst h2
        simp [dget, dget_dinsert_self]
      · simp [dget, h2, dget_dinsert_ne d kv.1 k kv.2 h2]

/-- The keys of a dict. -/
def keys (d : Dict) : List String := d.map Prod.fst

theorem dget_eq_none_of_not_mem (d : Dict) (k : String) (h : k ∉ keys d) :
    dget d k = none := by
  induction d with
  | nil => rfl
  | cons kv rest ih =>
    rw [keys, List.map_cons, List.mem_cons] at h
    push_neg at h
    rw [dget, if_neg (fun hh => h.1 hh.symm)]
    exact ih h.2

theorem mem_keys_of_dget (d : Dict) (k : String) (v : Value) (h : dget d k = some v) :
    k ∈ keys d := by
  induction d with
  | nil => simp [dget] at h
  | cons kv rest ih =>
    rw [keys, List.map_cons, List.mem_cons]
    rw [dget] at h
    by_cases h2 : kv.1 = k
    · exact Or.inl h2.symm
    · rw [if_neg h2] at h
      exact Or.inr (ih h)

theorem keys_dinsert (d : Dict) (k : String) (v : Value) (k' : String) :
    k' ∈ keys (dinsert d k v) ↔ k' = k ∨ k' ∈ keys d := by
  induction d with
  | nil => simp [dinsert, keys]
  | cons kv rest ih =>
    by_cases h : kv.1 = k
    · rw [show dinsert (kv :: rest) k v = (kv.1, v) :: rest by rw [dinsert, if_pos h]]
      rw [keys, List.map_cons, List.mem_cons, keys, List.map_cons, List.mem_cons, h]
      tauto
    · rw [show dinsert (kv :: rest) k v = kv :: dinsert rest k v by
        rw [dinsert, if_neg h]]
      rw [keys, List.map_cons, List.mem_cons, keys, List.map_cons, List.mem_cons]
      rw [keys] at ih
      tauto

/-- The keys of a dict are distinct; every dict the Python code builds has
this property, since assignment replaces an existing key in place. -/
def keysNodup (d : Dict) : Prop := (keys d).Nodup

theorem keysNodup_dinsert (d : Dict) (k : String) (v : Value) (h : keysNodup d) :
    keysNodup (dinsert d k v) := by
  induction d with
  | nil => simp [dinsert, keysNodup, keys]
  | cons kv rest ih =>
    rw [keysNodup, keys, List.map_cons, List.nodup_cons] at h
    by_cases h2 : kv.1 = k
    · rw [keysNodup, show dinsert (kv :: rest) k v = (kv.1, v) :: rest by
        rw [dinsert, if_pos h2]]
      rw [keys, List.map_cons, List.nodup_cons]
      exact ⟨h.1, h.2⟩
    · rw [keysNodup, show dinsert (kv :: rest) k v = kv :: dinsert rest k v by
        rw [dinsert, if_neg h2]]
      rw [keys, List.map_cons, List.nodup_cons]
      constructor
      · intro hmem
        rcases (keys_dinsert rest k v kv.1).mp hmem with h3 | h3
        · exact h2 h3
        · exact h.1 h3
      · exact ih h.2

theorem keysNodup_insertAll (ps : List (String × Value)) (d : Dict) (h : keysNodup d) :
    keysNodup (insertAll d ps) := by
  induction ps generalizing d with
  | nil => exact h
  | cons kv tl ih => exact ih (dinsert d kv.1 kv.2) (keysNodup_dinsert d kv.1 kv.2 h)

theorem dget_reverse (d : Dict) (k : String) (h : keysNodup d) :
    dget d.reverse k = dget d k := by
  induction d with
  | nil => rfl
  | cons kv rest ih =>
    rw [keysNodup, keys, List.map_cons, List.nodup_cons] at h
    rw [List.reverse_cons, dget_append]
    by_cases h2 : kv.1 = k
    · have hnotin : k ∉ keys rest := h2 ▸ h.1
      have hrev : dget rest.reverse k = none := by
        apply dget_eq_none_of_not_mem
        rw [keys, List.map_reverse, List.mem_reverse]
        exact hnotin
      rw [hrev]
      simp [dget, h2]
    · rw [ih h.2]
      cases h3 : dget rest k <;> simp [dget, h2, h3]

theorem insertAll_append (d : Dict) (ps qs : List (String × Value)) :
    insertAll d (ps ++ qs) = insertAll (insertAll d ps) qs := by
  simp [insertAll, List.foldl_append]

/-! ### Structural lemmas about the flattener -/

theorem flattenList_nil (chain : List Dict) (lvl c : Nat) :
    flattenList [] chain lvl c = ([], [], c) := by
  rw [flattenList]

theorem flattenList_cons (attrs : Dict) (children ns : List Node) (chain : List Dict)
    (lvl c : Nat) :
    flattenList (.mk attrs children :: ns) chain lvl c =
      (mkElement (stripAttrs attrs) chain lvl c children.isEmpty ::
          (flattenList children (chain ++ [stripAttrs attrs]) (lvl + 1) (c + 1)).1 ++
          (flattenList ns chain lvl
            (flattenList children (chain ++ [stripAttrs attrs]) (lvl + 1) (c + 1)).2.2).1,
        .mk (stripAttrs attrs)
          (flattenList children (chain ++ [stripAttrs attrs]) (lvl + 1) (c + 1)).2.1 ::
          (flattenList ns chain lvl
            (flattenList children (chain ++ [stripAttrs attrs]) (lvl + 1) (c + 1)).2.2).2.1,
        (flattenList ns chain lvl
          (flattenList children (chain ++ [stripAttrs attrs]) (lvl + 1) (c + 1)).2.2).2.2) := by
  rw [flattenList]

theorem sizeL_cons (attrs : Dict) (cs ns : List Node) :
    sizeL (.mk attrs cs :: ns) = 1 + sizeL cs + sizeL ns := by
  rw [sizeL]

theorem flattenList_length (ns : List Node) :
    ∀ (chain : List Dict) (lvl c : Nat), (flattenList ns chain lvl c).1.length = sizeL ns := by
  induction ns using sizeL.induct with
  | case1 => intro chain lvl c; simp [flattenList_nil, sizeL]
  | case2 attrs cs ns ih1 ih2 =>
    intro chain lvl c
    rw [flattenList_cons, sizeL_cons]
    simp only [List.length_cons, List.length_append, ih1, ih2]
    omega

theorem flattenList_count (ns : List Node) :
    ∀ (chain : List Dict) (lvl c : Nat), (flattenList ns chain lvl c).2.2 = c + sizeL ns := by
  induction ns using sizeL.induct with
  | case1 => intro chain lvl c; simp [flattenList_nil, sizeL]
  | case2 attrs cs ns ih1 ih2 =>
    intro chain lvl c
    rw [flattenList_cons, sizeL_cons]
    simp only [ih1, ih2]
    omega

theorem dget_mkElement_order (a : Dict) (chain : List Dict) (lvl c : Nat) (leaf : Bool) :
    dget (mkElement a chain lvl c leaf) "order_id" = some (.vInt c) := by
  simp only [mkElement]
  rw [dget_dinsert_ne _ "cfr_ref" "order_id" _ (by decide),
    dget_dinsert_ne _ "is_leaf_node" "order_id" _ (by decide),
    dget_dinsert_self]

/-- The order_id values emitted by one traversal are consecutive from the
initial counter value, in output order. -/
theorem flattenList_orderIds (ns : List Node) :
    ∀ (chain : List Dict) (lvl c : Nat),
      (flattenList ns chain lvl c).1.map (fun r => dget r "order_id")
        = (List.range' c (sizeL ns)).map (fun i : Nat => some (Value.vInt i)) := by
  induction ns using sizeL.induct with
  | case1 => intro chain lvl c; simp [flattenList_nil, sizeL]
  | case2 attrs cs ns ih1 ih2 =>
    intro chain lvl c
    rw [flattenList_cons]
    simp only [List.map_cons, List.map_append]
    rw [dget_mkElement_order, ih1, ih2, flattenList_count, sizeL_cons]
    have h1 : 1 + sizeL cs + sizeL ns = sizeL ns + sizeL cs + 1 := by omega
    rw [h1]
    rw [show List.range' c (sizeL ns + sizeL cs + 1) = c :: List.range' (c + 1) (sizeL ns + sizeL cs) from rfl]
    rw [← List.range'_append_1 (c + 1) (sizeL cs) (sizeL ns)]
    simp only [List.map_cons, List.map_append, List.cons_append]

/-! ### Path addressing of the output sequence -/

theorem pathInfo_nil (ns : List Node) : pathInfo ns [] = none := by
  rw [pathInfo]

theorem pathInfo_nil_forest (i : Nat) (p : List Nat) : pathInfo [] (i :: p) = none := by
  rw [pathInfo]

theorem pathInfo_zero_nil (n : Node) (tail : List Node) :
    pathInfo (n :: tail) [0] = some (n, 0, []) := by
  rw [pathInfo]

theorem pathInfo_zero_cons (n : Node) (tail : List Node) (q : Nat) (p : List Nat) :
    pathInfo (n :: tail) (0 :: q :: p) =
      match pathInfo n.children (q :: p) with
      | some (m, k, ch) => some (m, 1 + k, stripAttrs n.attrs :: ch)
      | none => none := by
  rw [pathInfo]

theorem pathInfo_succ (n : Node) (ns : List Node) (j : Nat) (p : List Nat) :
    pathInfo (n :: ns) ((j + 1) :: p) =
      match pathInfo ns (j :: p) with
      | some (m, k, ch) => some (m, sizeN n + k, ch)
      | none => none := by
  rw [pathInfo]

theorem sizeN_pos (n : Node) : 0 < sizeN n := by
  cases n with
  | mk a cs => rw [sizeN]; omega

theorem pathInfo_lt_size (ns : List Node) (p : List Nat) (m : Node) (k : Nat)
    (ch : List Dict) (h : pathInfo ns p = some (m, k, ch)) : k < sizeL ns := by
  induction ns, p using pathInfo.induct generalizing m k ch with
  | case1 x =>
    rw [pathInfo_nil] at h
    exact absurd h (by simp)
  | case2 hd tl =>
    rw [pathInfo_nil_forest] at h
    exact absurd h (by simp)
  | case3 n tail =>
    rw [pathInfo_zero_nil] at h
    simp only [Option.some.injEq, Prod.mk.injEq] at h
    obtain ⟨-, hk, -⟩ := h
    cases n with
    | mk a cs =>
      rw [sizeL_cons]
      omega
  | case4 n tail q p m' k' ch' heq ih =>
    rw [pathInfo_zero_cons, heq] at h
    simp only [Option.some.injEq, Prod.mk.injEq] at h
    obtain ⟨-, hk, -⟩ := h
    have hlt := ih m' k' ch' heq
    cases n with
    | mk a cs =>
      simp only [Node.children] at hlt
      rw [sizeL_cons]
      omega
  | case5 n tail q p heq ih =>
    rw [pathInfo_zero_cons, heq] at h
    exact absurd h (by simp)
  | case6 n ns j p m' k' ch' heq ih =>
    rw [pathInfo_succ, heq] at h
    simp only [Option.some.injEq, Prod.mk.injEq] at h
    obtain ⟨-, hk, -⟩ := h
    have hlt := ih m' k' ch' heq
    cases n with
    | mk a cs =>
      rw [sizeL_cons]
      rw [sizeN] at hk
      omega
  | case7 n ns j p heq ih =>
    rw [pathInfo_succ, heq] at h
    exact absurd h (by simp)

theorem flattenList_get_path (ns : List Node) (p : List Nat) (m : Node) (k : Nat)
    (ch : List Dict) (h : pathInfo ns p = some (m, k, ch)) :
    ∀ (chain : List Dict) (lvl c : Nat),
      (flattenList ns chain lvl c).1[k]? =
        some (mkElement (stripAttrs m.attrs) (chain ++ ch) (lvl + (p.length - 1)) (c + k)
          m.children.isEmpty) := by
  induction ns, p using pathInfo.induct generalizing m k ch with
  | case1 x =>
    rw [pathInfo_nil] at h
    exact absurd h (by simp)
  | case2 hd tl =>
    rw [pathInfo_nil_forest] at h
    exact absurd h (by simp)
  | case3 n tail =>
    rw [pathInfo_zero_nil] at h
    simp only [Option.some.injEq, Prod.mk.injEq] at h
    obtain ⟨rfl, hk, hch⟩ := h
    subst hk
    subst hch
    intro chain lvl c
    cases n with
    | mk a cs =>
      rw [flattenList_cons]
      dsimp only
      rw [List.cons_append, List.getElem?_cons_zero]
      simp [Node.attrs, Node.children]
  | case4 n tail q p m' k' ch' heq ih =>
    rw [pathInfo_zero_cons, heq] at h
    simp only [Option.some.injEq, Prod.mk.injEq] at h
    obtain ⟨rfl, hk, hch⟩ := h
    subst hk
    subst hch
    intro chain lvl c
    have hlt := pathInfo_lt_size _ _ _ _ _ heq
    cases n with
    | mk a cs =>
      have hc : (Node.mk a cs).children = cs := rfl
      have ha : (Node.mk a cs).attrs = a := rfl
      rw [hc] at heq ih hlt
      rw [ha]
      rw [flattenList_cons]
      dsimp only
      rw [List.getElem?_append_left
        (by rw [List.length_cons, flattenList_length]; omega)]
      rw [show 1 + k' = k' + 1 by omega, List.getElem?_cons_succ]
      rw [ih m' k' ch' heq (chain ++ [stripAttrs a]) (lvl + 1) (c + 1)]
      rw [List.append_cons chain (stripAttrs a) ch']
      have hlen : lvl + 1 + ((q :: p).length - 1) = lvl + ((0 :: q :: p).length - 1) := by
        simp only [List.length_cons]
        omega
      have hcnt : c + 1 + k' = c + (1 + k') := by omega
      rw [hlen, hcnt, Nat.add_comm k' 1]
  | case5 n tail q p heq ih =>
    rw [pathInfo_zero_cons, heq] at h
    exact absurd h (by simp)
  | case6 n ns j p m' k' ch' heq ih =>
    rw [pathInfo_succ, heq] at h
    simp only [Option.some.injEq, Prod.mk.injEq] at h
    obtain ⟨rfl, hk, hch⟩ := h
    subst hk
    subst hch
    intro chain lvl c
    cases n with
    | mk a cs =>
      rw [flattenList_cons]
      dsimp only
      rw [show sizeN (Node.mk a cs) = 1 + sizeL cs from rfl]
      rw [List.getElem?_append_right
        (by rw [List.length_cons, flattenList_length]; omega)]
      rw [show (1 + sizeL cs + k') - (mkElement (stripAttrs a) chain lvl c cs.isEmpty ::
        (flattenList cs (chain ++ [stripAttrs a]) (lvl + 1) (c + 1)).1).length = k' by
          rw [List.length_cons, flattenList_length]; omega]
      rw [flattenList_count]
      rw [ih m' k' ch' heq chain lvl (c + 1 + sizeL cs)]
      have hlen : lvl + ((j :: p).length - 1) = lvl + (((j + 1) :: p).length - 1) := by
        simp only [List.length_cons]
      have hcnt : c + 1 + sizeL cs + k' = c + (1 + sizeL cs + k') := by omega
      rw [hlen, hcnt]
  | case7 n ns j p heq ih =>
    rw [pathInfo_succ, heq] at h
    exact absurd h (by simp)

/-! ### Ordering of pre-order indices -/

theorem sizeL_append (xs ys : List Node) : sizeL (xs ++ ys) = sizeL xs + sizeL ys := by
  induction xs using sizeL.induct with
  | case1 => simp [sizeL]
  | case2 attrs cs ns ih1 ih2 =>
    rw [List.cons_append, sizeL_cons, sizeL_cons, ih2]
    omega

theorem sizeL_take_mono (ns : List Node) (a b : Nat) (h : a ≤ b) :
    sizeL (ns.take a) ≤ sizeL (ns.take b) := by
  have hb : b = a + (b - a) := by omega
  rw [hb, List.take_add, sizeL_append]
  omega

theorem sizeL_nil : sizeL ([] : List Node) = 0 := by
  rw [sizeL]

theorem pathInfo_idx_bounds (ns : List Node) (p : List Nat) (m : Node) (k : Nat)
    (ch : List Dict) (h : pathInfo ns p = some (m, k, ch)) :
    ∀ (i : Nat) (s : List Nat), p = i :: s →
      sizeL (ns.take i) ≤ k ∧ k < sizeL (ns.take (i + 1)) := by
  induction ns, p using pathInfo.induct generalizing m k ch with
  | case1 x =>
    intro i s hp
    exact absurd hp (by simp)
  | case2 hd tl =>
    rw [pathInfo_nil_forest] at h
    exact absurd h (by simp)
  | case3 n tail =>
    rw [pathInfo_zero_nil] at h
    simp only [Option.some.injEq, Prod.mk.injEq] at h
    obtain ⟨-, hk, -⟩ := h
    intro i s hp
    injection hp with hp1 hp2
    subst hp1
    cases n with
    | mk a cs =>
      rw [List.take_zero, List.take_succ_cons, List.take_zero, sizeL_cons, sizeL_nil]
      omega
  | case4 n tail q pp m2 k2 ch2 heq ih =>
    rw [pathInfo_zero_cons, heq] at h
    simp only [Option.some.injEq, Prod.mk.injEq] at h
    obtain ⟨-, hk, -⟩ := h
    intro i s hp
    injection hp with hp1 hp2
    subst hp1
    have hlt := pathInfo_lt_size _ _ _ _ _ heq
    cases n with
    | mk a cs =>
      have hc : (Node.mk a cs).children = cs := rfl
      rw [hc] at hlt
      rw [List.take_zero, List.take_succ_cons, List.take_zero, sizeL_cons, sizeL_nil]
      omega
  | case5 n tail q pp heq ih =>
    rw [pathInfo_zero_cons, heq] at h
    exact absurd h (by simp)
  | case6 n ns j pp m2 k2 ch2 heq ih =>
    rw [pathInfo_succ, heq] at h
    simp only [Option.some.injEq, Prod.mk.injEq] at h
    obtain ⟨-, hk, -⟩ := h
    intro i s hp
    injection hp with hp1 hp2
    subst hp1
    obtain ⟨hb1, hb2⟩ := ih m2 k2 ch2 heq j pp rfl
    cases n with
    | mk a cs =>
      rw [List.take_succ_cons, List.take_succ_cons, sizeL_cons, sizeL_cons]
      rw [show sizeN (Node.mk a cs) = 1 + sizeL cs from rfl] at hk
      omega
  | case7 n ns j pp heq ih =>
    rw [pathInfo_succ, heq] at h
    exact absurd h (by simp)

theorem pathInfo_idx_extends (ns : List Node) (p : List Nat) (m : Node) (k : Nat)
    (ch : List Dict) (h : pathInfo ns p = some (m, k, ch)) :
    ∀ (r : List Nat) (m2 : Node) (k2 : Nat) (ch2 : List Dict), r ≠ [] →
      pathInfo ns (p ++ r) = some (m2, k2, ch2) → k < k2 := by
  induction ns, p using pathInfo.induct generalizing m k ch with
  | case1 x =>
    rw [pathInfo_nil] at h
    exact absurd h (by simp)
  | case2 hd tl =>
    rw [pathInfo_nil_forest] at h
    exact absurd h (by simp)
  | case3 n tail =>
    rw [pathInfo_zero_nil] at h
    simp only [Option.some.injEq, Prod.mk.injEq] at h
    obtain ⟨-, hk, -⟩ := h
    intro r m2 k2 ch2 hr h2
    cases r with
    | nil => exact absurd rfl hr
    | cons q rr =>
      have h2' : pathInfo (n :: tail) (0 :: q :: rr) = some (m2, k2, ch2) := h2
      rw [pathInfo_zero_cons] at h2'
      cases hinner : pathInfo n.children (q :: rr) with
      | some x =>
        obtain ⟨mi, ki, chi⟩ := x
        rw [hinner] at h2'
        simp only [Option.some.injEq, Prod.mk.injEq] at h2'
        omega
      | none =>
        rw [hinner] at h2'
        exact absurd h2' (by simp)
  | case4 n tail q pp m' k' ch' heq ih =>
    rw [pathInfo_zero_cons, heq] at h
    simp only [Option.some.injEq, Prod.mk.injEq] at h
    obtain ⟨-, hk, -⟩ := h
    intro r m2 k2 ch2 hr h2
    have h2' : pathInfo (n :: tail) (0 :: q :: (pp ++ r)) = some (m2, k2, ch2) := h2
    rw [pathInfo_zero_cons] at h2'
    cases hinner : pathInfo n.children (q :: (pp ++ r)) with
    | some x =>
      obtain ⟨mi, ki, chi⟩ := x
      rw [hinner] at h2'
      simp only [Option.some.injEq, Prod.mk.injEq] at h2'
      have hlt := ih m' k' ch' heq r mi ki chi hr hinner
      omega
    | none =>
      rw [hinner] at h2'
      exact absurd h2' (by simp)
  | case5 n tail q pp heq ih =>
    rw [pathInfo_zero_cons, heq] at h
    exact absurd h (by simp)
  | case6 n ns j pp m' k' ch' heq ih =>
    rw [pathInfo_succ, heq] at h
    simp only [Option.some.injEq, Prod.mk.injEq] at h
    obtain ⟨-, hk, -⟩ := h
    intro r m2 k2 ch2 hr h2
    have h2' : pathInfo (n :: ns) ((j + 1) :: (pp ++ r)) = some (m2, k2, ch2) := h2
    rw [pathInfo_succ] at h2'
    cases hinner : pathInfo ns (j :: (pp ++ r)) with
    | some x =>
      obtain ⟨mi, ki, chi⟩ := x
      rw [hinner] at h2'
      simp only [Option.some.injEq, Prod.mk.injEq] at h2'
      have hlt := ih m' k' ch' heq r mi ki chi hr hinner
      omega
    | none =>
      rw [hinner] at h2'
      exact absurd h2' (by simp)
  | case7 n ns j pp heq ih =>
    rw [pathInfo_succ, heq] at h
    exact absurd h (by simp)

theorem pathInfo_idx_sib_base (ns : List Node) (i j : Nat) (s t : List Nat)
    (m1 : Node) (k1 : Nat) (ch1 : List Dict) (m2 : Node) (k2 : Nat) (ch2 : List Dict)
    (hij : i < j) (h1 : pathInfo ns (i :: s) = some (m1, k1, ch1))
    (h2 : pathInfo ns (j :: t) = some (m2, k2, ch2)) : k1 < k2 := by
  obtain ⟨-, hb1⟩ := pathInfo_idx_bounds ns (i :: s) m1 k1 ch1 h1 i s rfl
  obtain ⟨hb2, -⟩ := pathInfo_idx_bounds ns (j :: t) m2 k2 ch2 h2 j t rfl
  have hmono := sizeL_take_mono ns (i + 1) j (by omega)
  omega

theorem pathInfo_idx_sib (ns : List Node) (r : List Nat) :
    ∀ (i j : Nat) (s t : List Nat) (m1 : Node) (k1 : Nat) (ch1 : List Dict)
      (m2 : Node) (k2 : Nat) (ch2 : List Dict), i < j →
      pathInfo ns (r ++ i :: s) = some (m1, k1, ch1) →
      pathInfo ns (r ++ j :: t) = some (m2, k2, ch2) → k1 < k2 := by
  induction ns, r using pathInfo.induct with
  | case1 x =>
    intro i j s t m1 k1 ch1 m2 k2 ch2 hij h1 h2
    exact pathInfo_idx_sib_base x i j s t m1 k1 ch1 m2 k2 ch2 hij h1 h2
  | case2 hd tl =>
    intro i j s t m1 k1 ch1 m2 k2 ch2 hij h1 h2
    have h1' : pathInfo ([] : List Node) (hd :: (tl ++ i :: s)) = some (m1, k1, ch1) := h1
    rw [pathInfo_nil_forest] at h1'
    exact absurd h1' (by simp)
  | case3 n tail =>
    intro i j s t m1 k1 ch1 m2 k2 ch2 hij h1 h2
    have h1' : pathInfo (n :: tail) (0 :: i :: s) = some (m1, k1, ch1) := h1
    have h2' : pathInfo (n :: tail) (0 :: j :: t) = some (m2, k2, ch2) := h2
    rw [pathInfo_zero_cons] at h1' h2'
    cases hi1 : pathInfo n.children (i :: s) with
    | none =>
      rw [hi1] at h1'
      exact absurd h1' (by simp)
    | some x1 =>
      obtain ⟨mi1, ki1, chi1⟩ := x1
      cases hi2 : pathInfo n.children (j :: t) with
      | none =>
        rw [hi2] at h2'
        exact absurd h2' (by simp)
      | some x2 =>
        obtain ⟨mi2, ki2, chi2⟩ := x2
        rw [hi1] at h1'
        rw [hi2] at h2'
        simp only [Option.some.injEq, Prod.mk.injEq] at h1' h2'
        have := pathInfo_idx_sib_base n.children i j s t mi1 ki1 chi1 mi2 ki2 chi2 hij hi1 hi2
        omega
  | case4 n tail q pp m' k' ch' heq ih =>
    intro i j s t m1 k1 ch1 m2 k2 ch2 hij h1 h2
    have h1' : pathInfo (n :: tail) (0 :: q :: (pp ++ i :: s)) = some (m1, k1, ch1) := h1
    have h2' : pathInfo (n :: tail) (0 :: q :: (pp ++ j :: t)) = some (m2, k2, ch2) := h2
    rw [pathInfo_zero_cons] at h1' h2'
    cases hi1 : pathInfo n.children (q :: (pp ++ i :: s)) with
    | none =>
      rw [hi1] at h1'
      exact absurd h1' (by simp)
    | some x1 =>
      obtain ⟨mi1, ki1, chi1⟩ := x1
      cases hi2 : pathInfo n.children (q :: (pp ++ j :: t)) with
      | none =>
        rw [hi2] at h2'
        exact absurd h2' (by simp)
      | some x2 =>
        obtain ⟨mi2, ki2, chi2⟩ := x2
        rw [hi1] at h1'
        rw [hi2] at h2'
        simp only [Option.some.injEq, Prod.mk.injEq] at h1' h2'
        have := ih i j s t mi1 ki1 chi1 mi2 ki2 chi2 hij hi1 hi2
        omega
  | case5 n tail q pp heq ih =>
    intro i j s t m1 k1 ch1 m2 k2 ch2 hij h1 h2
    have h1' : pathInfo (n :: tail) (0 :: q :: (pp ++ i :: s)) = some (m1, k1, ch1) := h1
    have h2' : pathInfo (n :: tail) (0 :: q :: (pp ++ j :: t)) = some (m2, k2, ch2) := h2
    rw [pathInfo_zero_cons] at h1' h2'
    cases hi1 : pathInfo n.children (q :: (pp ++ i :: s)) with
    | none =>
      rw [hi1] at h1'
      exact absurd h1' (by simp)
    | some x1 =>
      obtain ⟨mi1, ki1, chi1⟩ := x1
      cases hi2 : pathInfo n.children (q :: (pp ++ j :: t)) with
      | none =>
        rw [hi2] at h2'
        exact absurd h2' (by simp)
      | some x2 =>
        obtain ⟨mi2, ki2, chi2⟩ := x2
        rw [hi1] at h1'
        rw [hi2] at h2'
        simp only [Option.some.injEq, Prod.mk.injEq] at h1' h2'
        have := ih i j s t mi1 ki1 chi1 mi2 ki2 chi2 hij hi1 hi2
        omega
  | case6 n ns j0 pp m' k' ch' heq ih =>
    intro i j s t m1 k1 ch1 m2 k2 ch2 hij h1 h2
    have h1' : pathInfo (n :: ns) ((j0 + 1) :: (pp ++ i :: s)) = some (m1, k1, ch1) := h1
    have h2' : pathInfo (n :: ns) ((j0 + 1) :: (pp ++ j :: t)) = some (m2, k2, ch2) := h2
    rw [pathInfo_succ] at h1' h2'
    cases hi1 : pathInfo ns (j0 :: (pp ++ i :: s)) with
    | none =>
      rw [hi1] at h1'
      exact absurd h1' (by simp)
    | some x1 =>
      obtain ⟨mi1, ki1, chi1⟩ := x1
      cases hi2 : pathInfo ns (j0 :: (pp ++ j :: t)) with
      | none =>
        rw [hi2] at h2'
        exact absurd h2' (by simp)
      | some x2 =>
        obtain ⟨mi2, ki2, chi2⟩ := x2
        rw [hi1] at h1'
        rw [hi2] at h2'
        simp only [Option.some.injEq, Prod.mk.injEq] at h1' h2'
        have := ih i j s t mi1 ki1 chi1 mi2 ki2 chi2 hij hi1 hi2
        omega
  | case7 n ns j0 pp heq ih =>
    intro i j s t m1 k1 ch1 m2 k2 ch2 hij h1 h2
    have h1' : pathInfo (n :: ns) ((j0 + 1) :: (pp ++ i :: s)) = some (m1, k1, ch1) := h1
    have h2' : pathInfo (n :: ns) ((j0 + 1) :: (pp ++ j :: t)) = some (m2, k2, ch2) := h2
    rw [pathInfo_succ] at h1' h2'
    cases hi1 : pathInfo ns (j0 :: (pp ++ i :: s)) with
    | none =>
      rw [hi1] at h1'
      exact absurd h1' (by simp)
    | some x1 =>
      obtain ⟨mi1, ki1, chi1⟩ := x1
      cases hi2 : pathInfo ns (j0 :: (pp ++ j :: t)) with
      | none =>
        rw [hi2] at h2'
        exact absurd h2' (by simp)
      | some x2 =>
        obtain ⟨mi2, ki2, chi2⟩ := x2
        rw [hi1] at h1'
        rw [hi2] at h2'
        simp only [Option.some.injEq, Prod.mk.injEq] at h1' h2'
        have := ih i j s t mi1 ki1 chi1 mi2 ki2 chi2 hij hi1 hi2
        omega

/-! ### Totality of the reference synthesizer -/

theorem appendixRef_isOk (item : Dict) (base_ref : String) :
    (appendixRef item base_ref).isOk = true := by
  unfold appendixRef
  repeat' split
  all_goals first
    | rfl
    | simp_all [truthyMem]

theorem subjectGroupRef_isOk (item : Dict) (base_ref : String) :
    (subjectGroupRef item base_ref).isOk = true := by
  unfold subjectGroupRef
  repeat' split
  all_goals first
    | rfl
    | simp_all [truthyMem]

theorem calcCfrRef_isOk (item : Dict) : (calcCfrRef item).isOk = true := by
  unfold calcCfrRef
  dsimp only
  repeat' split
  all_goals first
    | rfl
    | exact appendixRef_isOk item _
    | exact subjectGroupRef_isOk item _

theorem calcCfrRef_ok (item : Dict) : calcCfrRef item = Except.ok (cfrRefStr item) := by
  have h := calcCfrRef_isOk item
  cases hc : calcCfrRef item with
  | ok s => rw [cfrRefStr, hc]
  | error e =>
    rw [hc] at h
    simp [Except.isOk, Except.toBool] at h

/-! ### Merge-order lemmas for the element dict -/

theorem foldl_insertAll (chain : List Dict) :
    ∀ d : Dict, chain.foldl (fun acc a => insertAll acc (nsPairs a)) d
      = insertAll d (chainPairs chain) := by
  induction chain with
  | nil => intro d; rfl
  | cons a rest ih =>
    intro d
    rw [List.foldl_cons, ih, chainPairs, insertAll_append]

theorem combinedParentFields_eq (chain : List Dict) :
    combinedParentFields chain = insertAll [] (chainPairs chain) :=
  foldl_insertAll chain []

theorem keysNodup_combined (chain : List Dict) :
    keysNodup (combinedParentFields chain) := by
  rw [combinedParentFields_eq]
  exact keysNodup_insertAll _ _ (by simp [keysNodup, keys])

theorem dget_insertAll_nil (ps : List (String × Value)) (k : String) :
    dget (insertAll [] ps) k = dget ps.reverse k := by
  rw [dget_insertAll]
  cases h : dget ps.reverse k <;> rfl

theorem dget_insertAll_combined (e : Dict) (chain : List Dict) (K : String) (v : Value)
    (h : dget (combinedParentFields chain) K = some v) :
    dget (insertAll e (combinedParentFields chain)) K = some v := by
  rw [dget_insertAll, dget_reverse _ _ (keysNodup_combined chain), h]

theorem dget_mkElement_unreserved (a : Dict) (chain : List Dict) (lvl c : Nat) (leaf : Bool)
    (K : String) (h1 : K ≠ "hierarchy_level") (h2 : K ≠ "hierarchy_type") (h3 : K ≠ "order_id")
    (h4 : K ≠ "is_leaf_node") (h5 : K ≠ "cfr_ref") :
    dget (mkElement a chain lvl c leaf) K
      = dget (insertAll (ownFields a) (combinedParentFields chain)) K := by
  simp only [mkElement]
  rw [dget_dinsert_ne _ _ _ _ (Ne.symm h5), dget_dinsert_ne _ _ _ _ (Ne.symm h4),
    dget_dinsert_ne _ _ _ _ (Ne.symm h3), dget_dinsert_ne _ _ _ _ (Ne.symm h2),
    dget_dinsert_ne _ _ _ _ (Ne.symm h1)]


theorem tagKey_inj (t k1 k2 : String) (h : t ++ "_" ++ k1 = t ++ "_" ++ k2) : k1 = k2 := by
  apply String.ext
  have hd := congrArg String.data h
  rw [String.data_append, String.data_append, String.data_append, String.data_append] at hd
  exact List.append_cancel_left hd

/-- The namespaced bindings with an arbitrary fixed tag; nsPairs d uses the
tag typeTag d. -/
def tagPairs (t : String) (d : Dict) : List (String × Value) :=
  d.filterMap fun kv =>
    if kv.1 = "children" then none else some (t ++ "_" ++ kv.1, kv.2)

theorem nsPairs_eq_tagPairs (d : Dict) : nsPairs d = tagPairs (typeTag d) d := rfl

theorem mem_keys_tagPairs (t : String) (d : Dict) (K : String) (h : K ∈ keys (tagPairs t d)) :
    ∃ kv ∈ d, kv.1 ≠ "children" ∧ K = t ++ "_" ++ kv.1 := by
  induction d with
  | nil => simp [tagPairs, keys] at h
  | cons kv rest ih =>
    by_cases hc : kv.1 = "children"
    · rw [tagPairs, List.filterMap_cons, if_pos hc] at h
      obtain ⟨kv2, hkv2, hrest⟩ := ih h
      exact ⟨kv2, List.mem_cons_of_mem kv hkv2, hrest⟩
    · rw [tagPairs, List.filterMap_cons, if_neg hc] at h
      rw [keys, List.map_cons, List.mem_cons] at h
      cases h with
      | inl h => exact ⟨kv, List.mem_cons_self kv rest, hc, h⟩
      | inr h =>
        obtain ⟨kv2, hkv2, hrest⟩ := ih h
        exact ⟨kv2, List.mem_cons_of_mem kv hkv2, hrest⟩

theorem keysNodup_tagPairs (t : String) (d : Dict) (h : keysNodup d) :
    keysNodup (tagPairs t d) := by
  induction d with
  | nil => simp [tagPairs, keysNodup, keys]
  | cons kv rest ih =>
    rw [keysNodup, keys, List.map_cons, List.nodup_cons] at h
    by_cases hc : kv.1 = "children"
    · rw [keysNodup, tagPairs, List.filterMap_cons, if_pos hc]
      exact ih h.2
    · rw [keysNodup, tagPairs, List.filterMap_cons, if_neg hc]
      rw [keys, List.map_cons, List.nodup_cons]
      constructor
      · intro hmem
        obtain ⟨kv2, hkv2, -, hKeq⟩ := mem_keys_tagPairs t rest _ hmem
        have : kv.1 = kv2.1 := tagKey_inj t _ _ hKeq
        exact h.1 (this ▸ List.mem_map_of_mem Prod.fst hkv2)
      · exact ih h.2

theorem dget_tagPairs_type (t : String) (d : Dict) (tv : Value) (h : dget d "type" = some tv) :
    dget (tagPairs t d) (t ++ "_" ++ "type") = some tv := by
  induction d with
  | nil => simp [dget] at h
  | cons kv rest ih =>
    by_cases hc : kv.1 = "children"
    · rw [dget, if_neg (by rw [hc]; decide)] at h
      rw [tagPairs, List.filterMap_cons, if_pos hc]
      exact ih h
    · rw [tagPairs, List.filterMap_cons, if_neg hc]
      by_cases htp : kv.1 = "type"
      · rw [dget, if_pos htp] at h
        injection h with h
        subst h
        rw [dget, if_pos (by rw [htp])]
      · rw [dget, if_neg htp] at h
        rw [dget, if_neg (fun hcontra => htp (tagKey_inj t _ _ hcontra))]
        exact ih h

theorem chainPairs_append (l1 l2 : List Dict) :
    chainPairs (l1 ++ l2) = chainPairs l1 ++ chainPairs l2 := by
  induction l1 with
  | nil => rfl
  | cons a rest ih => rw [List.cons_append, chainPairs, chainPairs, ih, List.append_assoc]

theorem mem_keys_chainPairs (l : List Dict) (K : String) (h : K ∈ keys (chainPairs l)) :
    ∃ b ∈ l, K ∈ keys (nsPairs b) := by
  induction l with
  | nil => simp [chainPairs, keys] at h
  | cons a rest ih =>
    rw [chainPairs, keys, List.map_append, List.mem_append] at h
    cases h with
    | inl h => exact ⟨a, List.mem_cons_self a rest, h⟩
    | inr h =>
      obtain ⟨b, hb, hmem⟩ := ih h
      exact ⟨b, List.mem_cons_of_mem a hb, hmem⟩

theorem dget_combined_last (l1 l2 : List Dict) (a : Dict) (tv : Value)
    (hnd : keysNodup a) (ht : dget a "type" = some tv)
    (hl2 : ∀ b ∈ l2, (typeTag a ++ "_" ++ "type") ∉ keys (nsPairs b)) :
    dget (combinedParentFields (l1 ++ a :: l2)) (typeTag a ++ "_" ++ "type") = some tv := by
  rw [combinedParentFields_eq, dget_insertAll_nil]
  rw [chainPairs_append, chainPairs, List.reverse_append, List.reverse_append]
  rw [dget_append]
  have h2none : dget (chainPairs l2).reverse (typeTag a ++ "_" ++ "type") = none := by
    apply dget_eq_none_of_not_mem
    rw [keys, List.map_reverse, List.mem_reverse]
    intro hmem
    obtain ⟨b, hb, hmem2⟩ := mem_keys_chainPairs l2 _ hmem
    exact hl2 b hb hmem2
  rw [dget_append, h2none]
  have hmid : dget (nsPairs a).reverse (typeTag a ++ "_" ++ "type") = some tv := by
    rw [nsPairs_eq_tagPairs, dget_reverse _ _ (keysNodup_tagPairs _ _ hnd)]
    exact dget_tagPairs_type _ _ _ ht
  rw [hmid]

/-- The node's own namespaced bindings with an arbitrary fixed tag. -/
def ownTagPairs (t : String) (d : Dict) : List (String × Value) :=
  d.filterMap fun kv =>
    if kv.1 = "children" ∨ kv.1 = "type" then none
    else some (t ++ "_" ++ kv.1, kv.2)

theorem ownPairs_eq_ownTagPairs (d : Dict) : ownPairs d = ownTagPairs (typeTag d) d := rfl

theorem mem_keys_ownTagPairs (t : String) (d : Dict) (K : String)
    (h : K ∈ keys (ownTagPairs t d)) :
    ∃ kv ∈ d, ¬ (kv.1 = "children" ∨ kv.1 = "type") ∧ K = t ++ "_" ++ kv.1 := by
  induction d with
  | nil => simp [ownTagPairs, keys] at h
  | cons kv rest ih =>
    by_cases hc : kv.1 = "children" ∨ kv.1 = "type"
    · rw [ownTagPairs, List.filterMap_cons, if_pos hc] at h
      obtain ⟨kv2, hkv2, hrest⟩ := ih h
      exact ⟨kv2, List.mem_cons_of_mem kv hkv2, hrest⟩
    · rw [ownTagPairs, List.filterMap_cons, if_neg hc] at h
      rw [keys, List.map_cons, List.mem_cons] at h
      cases h with
      | inl h => exact ⟨kv, List.mem_cons_self kv rest, hc, h⟩
      | inr h =>
        obtain ⟨kv2, hkv2, hrest⟩ := ih h
        exact ⟨kv2, List.mem_cons_of_mem kv hkv2, hrest⟩

theorem dget_ownFields_tagtype (d : Dict) :
    dget (ownFields d) (typeTag d ++ "_" ++ "type") = none := by
  rw [ownFields, dget_insertAll_nil]
  apply dget_eq_none_of_not_mem
  rw [keys, List.map_reverse, List.mem_reverse]
  intro hmem
  obtain ⟨kv, hkv, hct, hKeq⟩ := mem_keys_ownTagPairs (typeTag d) d _
    (by rw [← ownPairs_eq_ownTagPairs, keys]; exact hmem)
  exact hct (Or.inr (tagKey_inj _ _ _ hKeq).symm)

/-! ### The in-place strip of volatile keys -/

theorem stripAllL_nil : stripAllL ([] : List Node) = [] := by
  rw [stripAllL]

theorem stripAllL_cons (a : Dict) (cs ns : List Node) :
    stripAllL (.mk a cs :: ns) = .mk (stripAttrs a) (stripAllL cs) :: stripAllL ns := by
  rw [stripAllL]

theorem stripAttrs_cons (kv : String × Value) (rest : Dict) :
    stripAttrs (kv :: rest) =
      if kv.1 = "size" ∨ kv.1 = "volumes" ∨ kv.1 = "descendant_range" then stripAttrs rest
      else kv :: stripAttrs rest := by
  by_cases h : kv.1 = "size" ∨ kv.1 = "volumes" ∨ kv.1 = "descendant_range"
  · simp only [stripAttrs, List.filter_cons, if_pos h]
    rw [if_neg (by simp; tauto)]
  · simp only [stripAttrs, List.filter_cons, if_neg h]
    rw [if_pos (by simp; tauto)]

theorem stripAttrs_idem (d : Dict) : stripAttrs (stripAttrs d) = stripAttrs d := by
  induction d with
  | nil => rfl
  | cons kv rest ih =>
    by_cases h : kv.1 = "size" ∨ kv.1 = "volumes" ∨ kv.1 = "descendant_range"
    · rw [stripAttrs_cons, if_pos h, ih]
    · rw [stripAttrs_cons, if_neg h, stripAttrs_cons, if_neg h, ih]

theorem stripAllL_isEmpty (ns : List Node) : (stripAllL ns).isEmpty = ns.isEmpty := by
  cases ns with
  | nil => rw [stripAllL_nil]
  | cons n rest =>
    cases n with
    | mk a cs => rw [stripAllL_cons]; rfl

theorem flattenList_mutation (ns : List Node) :
    ∀ (chain : List Dict) (lvl c : Nat), (flattenList ns chain lvl c).2.1 = stripAllL ns := by
  induction ns using sizeL.induct with
  | case1 => intro chain lvl c; rw [flattenList_nil, stripAllL_nil]
  | case2 attrs cs ns ih1 ih2 =>
    intro chain lvl c
    rw [flattenList_cons]
    dsimp only
    rw [ih1, ih2, stripAllL_cons]

theorem flattenList_strip_stable (ns : List Node) :
    ∀ (chain : List Dict) (lvl c : Nat),
      (flattenList (stripAllL ns) chain lvl c).1 = (flattenList ns chain lvl c).1 ∧
      (flattenList (stripAllL ns) chain lvl c).2.2 = (flattenList ns chain lvl c).2.2 := by
  induction ns using sizeL.induct with
  | case1 => intro chain lvl c; rw [stripAllL_nil]; exact ⟨rfl, rfl⟩
  | case2 attrs cs ns ih1 ih2 =>
    intro chain lvl c
    rw [stripAllL_cons, flattenList_cons, flattenList_cons]
    dsimp only
    rw [stripAttrs_idem, stripAllL_isEmpty]
    obtain ⟨hr1, hc1⟩ := ih1 (chain ++ [stripAttrs attrs]) (lvl + 1) (c + 1)
    rw [hr1, hc1]
    obtain ⟨hr2, hc2⟩ :=
      ih2 chain lvl (flattenList cs (chain ++ [stripAttrs attrs]) (lvl + 1) (c + 1)).2.2
    rw [hr2, hc2]
    exact ⟨rfl, rfl⟩

/-! ### Further small helpers -/

theorem tagtype_get (t : String) : ((t ++ "_" ++ "type").data.reverse)[1]? = some 'p' := by
  rw [String.data_append, String.data_append, List.reverse_append]
  rw [show ("type".data.reverse) = ['e', 'p', 'y', 't'] from rfl]
  rfl

theorem tagtype_ne (t R : String) (hR : ((R.data.reverse)[1]? = some 'p') → False) :
    t ++ "_" ++ "type" ≠ R := by
  intro h
  exact hR (h ▸ tagtype_get t)

theorem truthyMem_eq_dgetD (item : Dict) (k : String) :
    truthyMem item k = (dgetD item k (.vStr "")).truthy := by
  rw [truthyMem, dgetD]
  cases h : dget item k with
  | some v => rfl
  | none => rfl

theorem dget_some_dgetD (item : Dict) (k : String) (v : Value) (h : dget item k = some v) :
    dgetD item k (.vStr "") = v := by
  rw [dgetD, h]
  rfl

theorem calcCfrRef_no_title (item : Dict)
    (h : (dgetD item "title_identifier" (.vStr "")).truthy = false) :
    calcCfrRef item = .ok ("CFR " ++ ((dget item "hierarchy_type").getD .vNull).render) := by
  unfold calcCfrRef
  dsimp only
  rw [if_pos (by simp [h])]

/-! ### The subject-group reference, compared with the specified priority order -/

/-- Modelled from the spec, claim C6: the context-dependent base for a
subject_group record, checking in this priority order a truthy
appendix_identifier (with or without section_identifier), then
section_identifier alone, then subpart_identifier (with or without
part_identifier), then part_identifier alone, then subchapter_identifier
(with or without chapter_identifier), falling back to the bare base
reference.  Presence means the value is truthy; all spacing and
parenthesization is reproduced exactly. -/
def subjGroupSpecBase (item : Dict) (base_ref : String) : String :=
  if (dgetD item "appendix_identifier" (.vStr "")).truthy then
    (if (dgetD item "section_identifier" (.vStr "")).truthy then
      base_ref ++ " §" ++ (dgetD item "section_identifier" (.vStr "")).render
        ++ " ( " ++ (dgetD item "appendix_identifier" (.vStr "")).render ++ ")"
    else
      base_ref ++ " ( " ++ (dgetD item "appendix_identifier" (.vStr "")).render ++ ")")
  else if (dgetD item "section_identifier" (.vStr "")).truthy then
    base_ref ++ " §" ++ (dgetD item "section_identifier" (.vStr "")).render
  else if (dgetD item "subpart_identifier" (.vStr "")).truthy then
    (if (dgetD item "part_identifier" (.vStr "")).truthy then
      base_ref ++ " pt" ++ (dgetD item "part_identifier" (.vStr "")).render
        ++ "-" ++ (dgetD item "subpart_identifier" (.vStr "")).render
    else
      base_ref ++ " (Subpart " ++ (dgetD item "subpart_identifier" (.vStr "")).render ++ ")")
  else if (dgetD item "part_identifier" (.vStr "")).truthy then
    base_ref ++ " pt" ++ (dgetD item "part_identifier" (.vStr "")).render
  else if (dgetD item "subchapter_identifier" (.vStr "")).truthy then
    (if (dgetD item "chapter_identifier" (.vStr "")).truthy then
      base_ref ++ " ch" ++ (dgetD item "chapter_identifier" (.vStr "")).render
        ++ "-" ++ (dgetD item "subchapter_identifier" (.vStr "")).render
    else
      base_ref ++ " (Subchapter "
        ++ (dgetD item "subchapter_identifier" (.vStr "")).render ++ ")")
  else
    base_ref

/-- Modelled from the spec, claim C6: the subject-group suffix, appended iff
the subject_group_identifier is truthy. -/
def subjGroupSpecSuffix (item : Dict) : String :=
  if (dgetD item "subject_group_identifier" (.vStr "")).truthy then
    " (Subj Grp " ++ (dgetD item "subject_group_identifier" (.vStr "")).render ++ ")"
  else ""

/-- Modelled from the spec, claim C6: the whole subject_group reference for a
record with a truthy title identifier. -/
def subjGroupRefSpec (item : Dict) : String :=
  subjGroupSpecBase item ((dgetD item "title_identifier" (.vStr "")).render ++ " CFR")
    ++ subjGroupSpecSuffix item

theorem subjectGroupRef_eq (item : Dict) (base_ref : String) :
    subjectGroupRef item base_ref
      = Except.ok (subjGroupSpecBase item base_ref ++ subjGroupSpecSuffix item) := by
  unfold subjectGroupRef subjGroupSpecBase subjGroupSpecSuffix
  dsimp only
  simp only [truthyMem_eq_dgetD]
  by_cases hA : (dgetD item "appendix_identifier" (.vStr "")).truthy = true
  · rw [if_pos hA]
    cases hAv : dget item "appendix_identifier" with
    | none =>
      rw [dgetD, hAv] at hA
      exact absurd hA (by decide)
    | some v =>
      rw [dget_some_dgetD item "appendix_identifier" v hAv] at hA
      rw [dget_some_dgetD item "appendix_identifier" v hAv, if_pos hA]
  · rw [if_neg hA, if_neg hA]
    by_cases hS : (dgetD item "section_identifier" (.vStr "")).truthy = true
    · rw [if_pos hS]
      cases hSv : dget item "section_identifier" with
      | none =>
        rw [dgetD, hSv] at hS
        exact absurd hS (by decide)
      | some v =>
        rw [dget_some_dgetD item "section_identifier" v hSv] at hS
        rw [dget_some_dgetD item "section_identifier" v hSv, if_pos hS]
    · rw [if_neg hS, if_neg hS]
      by_cases hSp : (dgetD item "subpart_identifier" (.vStr "")).truthy = true
      · rw [if_pos hSp]
        cases hSpv : dget item "subpart_identifier" with
        | none =>
          rw [dgetD, hSpv] at hSp
          exact absurd hSp (by decide)
        | some v =>
          rw [dget_some_dgetD item "subpart_identifier" v hSpv] at hSp
          rw [dget_some_dgetD item "subpart_identifier" v hSpv, if_pos hSp]
      · rw [if_neg hSp, if_neg hSp]
        by_cases hP : (dgetD item "part_identifier" (.vStr "")).truthy = true
        · rw [if_pos hP]
          cases hPv : dget item "part_identifier" with
          | none =>
            rw [dgetD, hPv] at hP
            exact absurd hP (by decide)
          | some v =>
            rw [dget_some_dgetD item "part_identifier" v hPv] at hP
            rw [dget_some_dgetD item "part_identifier" v hPv, if_pos hP]
        · rw [if_neg hP, if_neg hP]
          by_cases hSc : (dgetD item "subchapter_identifier" (.vStr "")).truthy = true
          · rw [if_pos hSc]
            cases hScv : dget item "subchapter_identifier" with
            | none =>
              rw [dgetD, hScv] at hSc
              exact absurd hSc (by decide)
            | some v =>
              rw [dget_some_dgetD item "subchapter_identifier" v hScv] at hSc
              rw [dget_some_dgetD item "subchapter_identifier" v hScv, if_pos hSc]
          · rw [if_neg hSc, if_neg hSc]

theorem calcCfrRef_subject_group (item : Dict)
    (htype : dget item "hierarchy_type" = some (.vStr "subject_group"))
    (htitle : (dgetD item "title_identifier" (.vStr "")).truthy = true) :
    calcCfrRef item
      = subjectGroupRef item ((dgetD item "title_identifier" (.vStr "")).render ++ " CFR") := by
  unfold calcCfrRef
  dsimp only
  rw [htype]
  simp only [Option.getD_some]
  rw [if_neg (by simp [htitle])]
  rw [if_neg (by decide), if_neg (by decide), if_neg (by decide), if_neg (by decide),
    if_neg (by decide), if_neg (by decide), if_neg (by decide)]
  rw [if_pos trivial]

/-! ### The claims -/

/-- Claim C1, counterexample: in the output of flatten, when a node and its
parent produce the same namespaced key (here two nested nodes of type part,
each carrying an identifier attribute, both namespaced to part_identifier),
the child's record holds the parent's value "1", not the child's own
value "2": element.update(combined_parent_fields) merges the ancestor fields
last, so they overwrite the node's own fields. -/
theorem own_field_shadowed_by_parent :
    ((flatten (.mk [("type", .vStr "part"), ("identifier", .vStr "1")]
        [.mk [("type", .vStr "part"), ("identifier", .vStr "2")] []]) [] 0 1).1.map
      (fun r => dget r "part_identifier")) = [some (.vStr "1"), some (.vStr "1")]
    ∧ Value.vStr "1" ≠ Value.vStr "2" := by
  constructor
  · simp only [flatten, flattenList]
    decide
  · decide

/-- Claim C1 (amended): if the node's own field-set and an ancestor field-set
produce the same namespaced key, the output FlatRecord's value for that key
equals the merged ancestor value, not the node's own value: the ancestor
fields are merged last and take precedence (among ancestors, the nearest
one wins), provided the key is not one of the five reserved metadata keys
assigned afterwards. -/
theorem ancestor_overrides_own_field (n : Node) (p : List Nat) (m : Node) (idx : Nat)
    (ch : List Dict) (K : String) (v w : Value)
    (hpath : pathInfo [n] (0 :: p) = some (m, idx, ch))
    (hown : dget (ownFields (stripAttrs m.attrs)) K = some w)
    (hanc : dget (combinedParentFields ch) K = some v)
    (h1 : K ≠ "hierarchy_level") (h2 : K ≠ "hierarchy_type") (h3 : K ≠ "order_id")
    (h4 : K ≠ "is_leaf_node") (h5 : K ≠ "cfr_ref") :
    ∃ r, (flatten n [] 0 1).1[idx]? = some r ∧ dget r K = some v := by
  have hrec := flattenList_get_path [n] (0 :: p) m idx ch hpath [] 0 1
  refine ⟨_, hrec, ?_⟩
  rw [dget_mkElement_unreserved _ _ _ _ _ _ h1 h2 h3 h4 h5]
  exact dget_insertAll_combined _ _ _ _ hanc

/-- Claim C1, witness: concrete nested part-in-part tree where the child's
record holds the parent's value at the shared key part_identifier. -/
theorem ancestor_overrides_own_field_witness :
    ∃ r, (flatten (.mk [("type", .vStr "part"), ("identifier", .vStr "1")]
        [.mk [("type", .vStr "part"), ("identifier", .vStr "2")] []]) [] 0 1).1[1]? = some r
      ∧ dget r "part_identifier" = some (.vStr "1") :=
  ancestor_overrides_own_field
    (.mk [("type", .vStr "part"), ("identifier", .vStr "1")]
      [.mk [("type", .vStr "part"), ("identifier", .vStr "2")] []])
    [0] (.mk [("type", .vStr "part"), ("identifier", .vStr "2")] []) 1
    [[("type", .vStr "part"), ("identifier", .vStr "1")]] "part_identifier"
    (.vStr "1") (.vStr "2")
    (by simp [pathInfo, Node.children, Node.attrs, stripAttrs, typeTag, dget])
    (by decide) (by decide)
    (by decide) (by decide) (by decide) (by decide) (by decide)


/-- Claim C2 (code bug): within a single traversal starting from a fresh
counter the order_id values are 1..N, but the Python default argument
order_id=[1] is a single list created at function definition time, shared by
every call that relies on the default: here the first call on a one-node
tree emits order_id 1 and the second call on a different one-node tree emits
order_id 2 instead of restarting at 1, because the second call continues the
shared counter. -/
theorem order_id_shared_counter_across_calls :
    ((flattenCalls [.mk [("type", .vStr "title")] [], .mk [("type", .vStr "part")] []] 1).1.map
      (fun rs => rs.map (fun r => dget r "order_id")))
      = [[some (.vInt 1)], [some (.vInt 2)]]
    ∧ Value.vInt 2 ≠ Value.vInt 1 := by
  constructor
  · simp only [flattenCalls, flatten, flattenList]
    decide
  · decide

/-- Claim C3, counterexample: on the literal Scenario A input, whose
attribute keys are already spelled title_identifier, part_identifier and
section_identifier on the nodes themselves, the flattener namespaces them a
second time (title_title_identifier and so on), the synthesizer finds no
title_identifier key, and the section record's cfr_ref degrades to
"CFR section" instead of the claimed "21 CFR §100.1". -/
theorem scenario_a_literal_input_degrades :
    ((flatten (.mk [("type", .vStr "title"), ("title_identifier", .vStr "21")]
        [.mk [("type", .vStr "part"), ("part_identifier", .vStr "100")]
          [.mk [("type", .vStr "section"), ("section_identifier", .vStr "100.1")] []]])
      [] 0 1).1.map (fun r => dget r "cfr_ref"))
      = [some (.vStr "CFR title"), some (.vStr "CFR part"), some (.vStr "CFR section")]
    ∧ Value.vStr "CFR section" ≠ Value.vStr "21 CFR §100.1" := by
  constructor
  · simp only [flatten, flattenList]
    decide
  · decide

/-- Claim C3 (amended): with the node attributes stored under the key
identifier, as in the real eCFR structure JSON, which the flattener
namespaces into title_identifier, part_identifier and section_identifier,
Scenario A holds: 3 records, order_id 1, 2, 3, hierarchy_level 0, 1, 2, and
the section record's cfr_ref is exactly "21 CFR §100.1". -/
theorem scenario_a_identifier_keys :
    (flatten (.mk [("type", .vStr "title"), ("identifier", .vStr "21")]
        [.mk [("type", .vStr "part"), ("identifier", .vStr "100")]
          [.mk [("type", .vStr "section"), ("identifier", .vStr "100.1")] []]])
      [] 0 1).1.length = 3
    ∧ ((flatten (.mk [("type", .vStr "title"), ("identifier", .vStr "21")]
        [.mk [("type", .vStr "part"), ("identifier", .vStr "100")]
          [.mk [("type", .vStr "section"), ("identifier", .vStr "100.1")] []]])
      [] 0 1).1.map (fun r => dget r "order_id"))
      = [some (.vInt 1), some (.vInt 2), some (.vInt 3)]
    ∧ ((flatten (.mk [("type", .vStr "title"), ("identifier", .vStr "21")]
        [.mk [("type", .vStr "part"), ("identifier", .vStr "100")]
          [.mk [("type", .vStr "section"), ("identifier", .vStr "100.1")] []]])
      [] 0 1).1.map (fun r => dget r "hierarchy_level"))
      = [some (.vInt 0), some (.vInt 1), some (.vInt 2)]
    ∧ ((flatten (.mk [("type", .vStr "title"), ("identifier", .vStr "21")]
        [.mk [("type", .vStr "part"), ("identifier", .vStr "100")]
          [.mk [("type", .vStr "section"), ("identifier", .vStr "100.1")] []]])
      [] 0 1).1.map (fun r => dget r "cfr_ref"))
      = [some (.vStr "21 CFR"), some (.vStr "21 CFR pt100"), some (.vStr "21 CFR §100.1")] := by
  refine ⟨?_, ?_, ?_, ?_⟩
  all_goals simp only [flatten, flattenList]
  all_goals decide

/-- Claim C4: the reference synthesizer is total: for every input record it
never raises (the KeyError branches of the embedding are unreachable) and
returns a string. -/
theorem calc_cfr_ref_total (item : Dict) : ∃ s : String, calcCfrRef item = Except.ok s :=
  ⟨cfrRefStr item, calcCfrRef_ok item⟩

/-- Claim C5, counterexample: for a record with no hierarchy_type at all, the
degraded reference renders Python None into the f-string, producing
"CFR None", not the claimed "CFR unknown". -/
theorem missing_type_renders_none :
    calcCfrRef [] = Except.ok "CFR None" ∧ "CFR None" ≠ "CFR unknown" := by
  constructor
  · rfl
  · decide

/-- Claim C5 (amended): whenever the title identifier is absent or falsy, the
synthesizer returns "CFR " followed by the Python str rendering of the
hierarchy_type value (the value itself when it is a string such as part,
the text None when the field is absent), and never raises. -/
theorem missing_title_degraded_ref (item : Dict)
    (h : (dgetD item "title_identifier" (.vStr "")).truthy = false) :
    calcCfrRef item = Except.ok ("CFR " ++ ((dget item "hierarchy_type").getD .vNull).render) :=
  calcCfrRef_no_title item h

/-- Claim C5, witness: a part record without any title identifier yields
exactly "CFR part". -/
theorem missing_title_degraded_ref_witness :
    calcCfrRef [("hierarchy_type", .vStr "part"), ("part_identifier", .vStr "100")]
      = Except.ok "CFR part" :=
  (missing_title_degraded_ref
    [("hierarchy_type", .vStr "part"), ("part_identifier", .vStr "100")] (by decide)).trans rfl



/-- Claim C6: for every record with a truthy title identifier and
hierarchy_type subject_group, the synthesizer's result is exactly the
reference built by the specified priority order: appendix context first
(with or without section), then section alone, then subpart (with or
without part), then part alone, then subchapter (with or without chapter),
else the bare base, followed by the Subj Grp suffix iff the
subject_group_identifier is truthy. -/
theorem subject_group_priority_order (item : Dict)
    (htype : dget item "hierarchy_type" = some (.vStr "subject_group"))
    (htitle : (dgetD item "title_identifier" (.vStr "")).truthy = true) :
    calcCfrRef item = Except.ok (subjGroupRefSpec item) := by
  rw [calcCfrRef_subject_group item htype htitle, subjectGroupRef_eq]
  rfl

/-- Claim C6, witness, Scenario D: a subject_group record with only a part
identifier and subject-group identifier 3 under title 26 yields exactly
"26 CFR pt200 (Subj Grp 3)". -/
theorem subject_group_priority_order_witness :
    calcCfrRef [("hierarchy_type", .vStr "subject_group"), ("title_identifier", .vStr "26"),
        ("part_identifier", .vStr "200"), ("subject_group_identifier", .vStr "3")]
      = Except.ok "26 CFR pt200 (Subj Grp 3)" :=
  (subject_group_priority_order
    [("hierarchy_type", .vStr "subject_group"), ("title_identifier", .vStr "26"),
      ("part_identifier", .vStr "200"), ("subject_group_identifier", .vStr "3")]
    (by decide) (by decide)).trans rfl

/-- Claim C7: the output of flatten is in pre-order.  For any two addressed
nodes, if the second path strictly extends the first (the second node is a
descendant), or the two paths first differ at sibling indices i before j,
then the first node's record occupies a strictly earlier output position,
and both positions hold exactly the records of the addressed nodes. -/
theorem flatten_preorder_output (n : Node) (p q : List Nat) (mp mq : Node) (ip iq : Nat)
    (cp cq : List Dict)
    (hp : pathInfo [n] (0 :: p) = some (mp, ip, cp))
    (hq : pathInfo [n] (0 :: q) = some (mq, iq, cq))
    (hrel : (∃ r, r ≠ [] ∧ q = p ++ r) ∨
      (∃ r i j s t, i < j ∧ p = r ++ i :: s ∧ q = r ++ j :: t)) :
    ip < iq ∧
    (flatten n [] 0 1).1[ip]?
      = some (mkElement (stripAttrs mp.attrs) cp p.length (1 + ip) mp.children.isEmpty) ∧
    (flatten n [] 0 1).1[iq]?
      = some (mkElement (stripAttrs mq.attrs) cq q.length (1 + iq) mq.children.isEmpty) := by
  refine ⟨?_, ?_, ?_⟩
  · rcases hrel with ⟨r, hr, rfl⟩ | ⟨r, i, j, s, t, hij, rfl, rfl⟩
    · exact pathInfo_idx_extends [n] (0 :: p) mp ip cp hp r mq iq cq hr hq
    · exact pathInfo_idx_sib [n] (0 :: r) i j s t mp ip cp mq iq cq hij hp hq
  · have hgp := flattenList_get_path [n] (0 :: p) mp ip cp hp [] 0 1
    simp only [List.nil_append, List.length_cons, Nat.add_sub_cancel, Nat.zero_add] at hgp
    exact hgp
  · have hgq := flattenList_get_path [n] (0 :: q) mq iq cq hq [] 0 1
    simp only [List.nil_append, List.length_cons, Nat.add_sub_cancel, Nat.zero_add] at hgq
    exact hgq

/-- Claim C7, witness: in a two-node tree the root's record (position 0)
precedes its child's record (position 1), and both positions hold the
corresponding records. -/
theorem flatten_preorder_output_witness :
    (0 : Nat) < 1 ∧
    (flatten (.mk [("type", .vStr "title"), ("identifier", .vStr "21")]
        [.mk [("type", .vStr "section"), ("identifier", .vStr "1.1")] []]) [] 0 1).1[0]?
      = some (mkElement (stripAttrs [("type", .vStr "title"), ("identifier", .vStr "21")])
          [] 0 1 false) ∧
    (flatten (.mk [("type", .vStr "title"), ("identifier", .vStr "21")]
        [.mk [("type", .vStr "section"), ("identifier", .vStr "1.1")] []]) [] 0 1).1[1]?
      = some (mkElement (stripAttrs [("type", .vStr "section"), ("identifier", .vStr "1.1")])
          [stripAttrs [("type", .vStr "title"), ("identifier", .vStr "21")]] 1 2 true) :=
  flatten_preorder_output
    (.mk [("type", .vStr "title"), ("identifier", .vStr "21")]
      [.mk [("type", .vStr "section"), ("identifier", .vStr "1.1")] []])
    [] [0]
    (.mk [("type", .vStr "title"), ("identifier", .vStr "21")]
      [.mk [("type", .vStr "section"), ("identifier", .vStr "1.1")] []])
    (.mk [("type", .vStr "section"), ("identifier", .vStr "1.1")] [])
    0 1 [] [stripAttrs [("type", .vStr "title"), ("identifier", .vStr "21")]]
    (by simp [pathInfo])
    (by simp [pathInfo, Node.children, Node.attrs])
    (Or.inl ⟨[0], by decide, rfl⟩)

/-- Claim C8: the flattener deletes exactly the keys size, volumes and
descendant_range from every visited node, in the model visible as the
returned post-mutation tree being the input tree with those keys stripped
everywhere and nothing else changed, and the records it emits are identical
to those of the fully pre-stripped tree, so no namespaced key derived from
the three volatile attributes, of the node itself or of any ancestor, can
reach any output record. -/
theorem strip_keys_no_leak (n : Node) (chain : List Dict) (lvl c : Nat) :
    (flatten n chain lvl c).2.1 = stripAll n ∧
    (flatten (stripAll n) chain lvl c).1 = (flatten n chain lvl c).1 := by
  cases n with
  | mk a cs =>
    constructor
    · show (flattenList [Node.mk a cs] chain lvl c).2.1.headD _ = _
      rw [flattenList_mutation, stripAllL_cons, stripAllL_nil]
      rfl
    · show (flattenList [stripAll (Node.mk a cs)] chain lvl c).1
        = (flattenList [Node.mk a cs] chain lvl c).1
      have h := (flattenList_strip_stable [Node.mk a cs] chain lvl c).1
      rw [stripAllL_cons, stripAllL_nil] at h
      exact h



/-- Claim C9, counterexample: an ancestor of type hierarchy namespaces its
type attribute to the key hierarchy_type, which collides with the reserved
hierarchy_type metadata field; the reserved assignment happens after the
merge, so the child's record holds the child's own type s at that key, not
the ancestor's type value hierarchy as the claim requires. -/
theorem ancestor_type_shadowed_by_reserved :
    ((flatten (.mk [("type", .vStr "hierarchy")] [.mk [("type", .vStr "s")] []]) [] 0 1).1.map
      (fun r => dget r "hierarchy_type")) = [some (.vStr "hierarchy"), some (.vStr "s")]
    ∧ Value.vStr "s" ≠ Value.vStr "hierarchy" := by
  constructor
  · simp only [flatten, flattenList]
    decide
  · decide

/-- Claim C9 (amended): for a non-root node, each ancestor with a type
attribute contributes the namespaced key made of its rendered type, an
underscore and the word type, holding that ancestor's type value, and the
record contains it provided no nearer ancestor contributes the same key and
the key is not the reserved hierarchy_type field (which the metadata
assignment overwrites); the node's own type is never namespaced by the node
itself (its own field-set never contains its own tag-underscore-type key). -/
theorem ancestor_type_namespaced (n : Node) (p : List Nat) (m : Node) (idx : Nat)
    (ch l1 l2 : List Dict) (a : Dict) (tv : Value)
    (hpath : pathInfo [n] (0 :: p) = some (m, idx, ch))
    (hch : ch = l1 ++ a :: l2)
    (hnd : keysNodup a)
    (ht : dget a "type" = some tv)
    (hres : typeTag a ++ "_" ++ "type" ≠ "hierarchy_type")
    (hl2 : ∀ b ∈ l2, (typeTag a ++ "_" ++ "type") ∉ keys (nsPairs b)) :
    ∃ r, (flatten n [] 0 1).1[idx]? = some r ∧
      dget r (typeTag a ++ "_" ++ "type") = some tv ∧
      dget (ownFields (stripAttrs m.attrs))
        (typeTag (stripAttrs m.attrs) ++ "_" ++ "type") = none := by
  subst hch
  have hrec := flattenList_get_path [n] (0 :: p) m idx (l1 ++ a :: l2) hpath [] 0 1
  refine ⟨_, hrec, ?_, dget_ownFields_tagtype _⟩
  rw [dget_mkElement_unreserved _ _ _ _ _ _
    (tagtype_ne _ _ (by decide)) hres (tagtype_ne _ _ (by decide))
    (tagtype_ne _ _ (by decide)) (tagtype_ne _ _ (by decide))]
  exact dget_insertAll_combined _ _ _ _ (dget_combined_last l1 l2 a tv hnd ht hl2)

/-- Claim C9, witness: in a title-over-section tree, the section's record
holds title_type mapped to the ancestor's type value title, and the
section's own field-set contains no section_type key. -/
theorem ancestor_type_namespaced_witness :
    ∃ r, (flatten (.mk [("type", .vStr "title"), ("identifier", .vStr "21")]
        [.mk [("type", .vStr "section")] []]) [] 0 1).1[1]? = some r ∧
      dget r (typeTag [("type", .vStr "title"), ("identifier", .vStr "21")] ++ "_" ++ "type")
        = some (.vStr "title") ∧
      dget (ownFields (stripAttrs (Node.mk [("type", .vStr "section")] []).attrs))
        (typeTag (stripAttrs (Node.mk [("type", .vStr "section")] []).attrs) ++ "_" ++ "type")
        = none :=
  ancestor_type_namespaced
    (.mk [("type", .vStr "title"), ("identifier", .vStr "21")]
      [.mk [("type", .vStr "section")] []])
    [0] (.mk [("type", .vStr "section")] []) 1
    [[("type", .vStr "title"), ("identifier", .vStr "21")]]
    [] [] [("type", .vStr "title"), ("identifier", .vStr "21")] (.vStr "title")
    (by simp [pathInfo, Node.children, Node.attrs, stripAttrs, typeTag, dget])
    rfl (by unfold keysNodup keys; decide) (by decide) (by decide) (by simp)

/-- Claim C10: for a subject_group record with a truthy title identifier, a
truthy subpart identifier, no truthy part identifier and no truthy appendix
or section identifier, the context base is exactly the title reference
followed by the parenthesized Subpart form, with the Subj Grp suffix
appended iff the subject_group_identifier is truthy. -/
theorem subject_group_subpart_parenthesized (item : Dict)
    (htype : dget item "hierarchy_type" = some (.vStr "subject_group"))
    (htitle : (dgetD item "title_identifier" (.vStr "")).truthy = true)
    (happ : truthyMem item "appendix_identifier" = false)
    (hsec : truthyMem item "section_identifier" = false)
    (hsub : (dgetD item "subpart_identifier" (.vStr "")).truthy = true)
    (hpart : (dgetD item "part_identifier" (.vStr "")).truthy = false) :
    calcCfrRef item = Except.ok
      ((dgetD item "title_identifier" (.vStr "")).render ++ " CFR" ++ " (Subpart "
        ++ (dgetD item "subpart_identifier" (.vStr "")).render ++ ")"
        ++ (if (dgetD item "subject_group_identifier" (.vStr "")).truthy then
          " (Subj Grp " ++ (dgetD item "subject_group_identifier" (.vStr "")).render ++ ")"
        else "")) := by
  rw [calcCfrRef_subject_group item htype htitle, subjectGroupRef_eq]
  rw [truthyMem_eq_dgetD] at happ hsec
  unfold subjGroupSpecBase subjGroupSpecSuffix
  rw [if_neg (by rw [happ]; simp), if_neg (by rw [hsec]; simp), if_pos hsub,
    if_neg (by rw [hpart]; simp)]

/-- Claim C10, witness: a subject_group record with title 26, subpart B and
subject-group identifier 3 yields exactly "26 CFR (Subpart B) (Subj Grp 3)". -/
theorem subject_group_subpart_parenthesized_witness :
    calcCfrRef [("hierarchy_type", .vStr "subject_group"), ("title_identifier", .vStr "26"),
        ("subpart_identifier", .vStr "B"), ("subject_group_identifier", .vStr "3")]
      = Except.ok "26 CFR (Subpart B) (Subj Grp 3)" :=
  (subject_group_subpart_parenthesized
    [("hierarchy_type", .vStr "subject_group"), ("title_identifier", .vStr "26"),
      ("subpart_identifier", .vStr "B"), ("subject_group_identifier", .vStr "3")]
    (by decide) (by decide) (by decide) (by decide) (by decide) (by decide)).trans rfl

end ECfr
